import Mathlib

/-!
# Verification of the HNG string-analysis service core

Shallow embedding of the controllers in `src/app.ts` (route handlers
`addString`, `getAllStringsWithFiltering`, `filterByNaturalLanguage`,
`deleteString`) together with reference definitions taken from the
specification, and theorems settling the frozen claims.

Strings are modelled as `List Char`; JavaScript numbers appearing in
query parameters are modelled as `ℚ`; the SHA-256 digest used for record
identity is implemented in full over byte lists.
-/

namespace StrAnalysis

/-- Characters matched by the JavaScript regex class `\s` (also the set
removed by `String.prototype.trim`). -/
def isWs (c : Char) : Bool :=
  c = ' ' || c = '\t' || c = '\n' || c = '\x0B' || c = '\x0C' || c = '\r' ||
  c = '\u00A0' || c = '\u1680' || ('\u2000' ≤ c && c ≤ '\u200A') ||
  c = '\u2028' || c = '\u2029' || c = '\u202F' || c = '\u205F' ||
  c = '\u3000' || c = '\uFEFF'

/-- JavaScript `String.prototype.trim`: drop leading and trailing
whitespace. -/
def trimList (l : List Char) : List Char :=
  ((l.dropWhile isWs).reverse.dropWhile isWs).reverse

/-- Lodash `_.toLower` / `String.prototype.toLowerCase`, modelled on the
ASCII letters (all characters exercised by the development). -/
def toLowerList (l : List Char) : List Char :=
  l.map Char.toLower

/-- Abbreviation turning a string literal into the `List Char` model. -/
def chars (s : String) : List Char := s.data

/-- JavaScript `String.prototype.includes`: substring (contiguous infix)
test. -/
def jsIncludes (hay sub : List Char) : Bool :=
  decide (sub <:+: hay)

/-- One insertion step of a JavaScript `Set` built from the characters of
a string: insertion order, first occurrence kept. -/
def jsSetInsert (s : List Char) (c : Char) : List Char :=
  if c ∈ s then s else s ++ [c]

/-- `Array.from(new Set(value))` from `addString`: the distinct characters
of `value` in first-occurrence order. -/
def jsSet (v : List Char) : List Char :=
  v.foldl jsSetInsert []

/-- One step of the frequency-map `reduce` in `addString`:
`acc[char] = (acc[char] || 0) + 1` on a JavaScript object modelled as an
insertion-ordered association list. -/
def freqBump : List (Char × Nat) → Char → List (Char × Nat)
  | [], c => [(c, 1)]
  | (k, n) :: rest, c =>
      if k = c then (k, n + 1) :: rest else (k, n) :: freqBump rest c

/-- The `character_frequency_map` computed by `addString`. -/
def character_frequency_map (v : List Char) : List (Char × Nat) :=
  v.foldl freqBump []

/-- State machine for `String.prototype.split(/\s+/)`: the second argument
is `some acc` while accumulating a piece and `none` while skipping a run of
whitespace. -/
def splitWsGo : List Char → Option (List Char) → List (List Char)
  | [], some acc => [acc.reverse]
  | [], none => [[]]
  | c :: rest, some acc =>
      if isWs c then acc.reverse :: splitWsGo rest none
      else splitWsGo rest (some (c :: acc))
  | c :: rest, none =>
      if isWs c then splitWsGo rest none
      else splitWsGo rest (some [c])

/-- JavaScript `value.split(/\s+/)`. -/
def splitWs (l : List Char) : List (List Char) :=
  splitWsGo l (some [])

/-- The `word_count` computed by `addString`:
`value.trim() === "" ? 0 : value.trim().split(/\s+/).length`. -/
def word_count (v : List Char) : Nat :=
  if trimList v = [] then 0 else (splitWs (trimList v)).length

/-- The `is_palindrome` computed by `addString`:
`value === value.split("").reverse().join("")`. -/
def is_palindrome (v : List Char) : Bool :=
  decide (v = v.reverse)

/-- The `unique_characters` computed by `addString`:
`Array.from(new Set(value)).length`. -/
def unique_characters (v : List Char) : Nat :=
  (jsSet v).length

/-- Reference definition from the spec: the number of whitespace-delimited
tokens (maximal non-whitespace runs) of a string, counted after trimming.
The `Bool` state records whether the scan is currently inside a token. -/
def countTokensGo : List Char → Bool → Nat
  | [], _ => 0
  | c :: rest, inTok =>
      if isWs c then countTokensGo rest false
      else (if inTok then 0 else 1) + countTokensGo rest true

/-- Reference token count of a raw string (spec §3 `word_count`). -/
def countTokens (l : List Char) : Nat :=
  countTokensGo l false

/-- Number of maximal whitespace runs of a string; the `Bool` state records
whether the scan is currently inside such a run. -/
def wsRunsGo : List Char → Bool → Nat
  | [], _ => 0
  | c :: rest, inWs =>
      if isWs c then (if inWs then 0 else 1) + wsRunsGo rest true
      else wsRunsGo rest false

/-! ## SHA-256 (`crypto.createHash("sha256")`), over UTF-8 bytes -/

/-- UTF-8 encoding of one character (the default encoding used by
`hash.update(value)`). -/
def utf8Char (c : Char) : List Nat :=
  let n := c.toNat
  if n < 128 then [n]
  else if n < 2048 then [192 + n / 64, 128 + n % 64]
  else if n < 65536 then [224 + n / 4096, 128 + (n / 64) % 64, 128 + n % 64]
  else [240 + n / 262144, 128 + (n / 4096) % 64, 128 + (n / 64) % 64, 128 + n % 64]

/-- UTF-8 encoding of a string. -/
def utf8 (l : List Char) : List Nat :=
  (l.map utf8Char).flatten

/-- Truncation to a 32-bit word. -/
def w32 (n : Nat) : Nat := n % 4294967296

/-- Right rotation of a 32-bit word by `k`. -/
def rotr (k n : Nat) : Nat := w32 ((n >>> k) ||| (n <<< (32 - k)))

def bigSigma0 (x : Nat) : Nat := rotr 2 x ^^^ rotr 13 x ^^^ rotr 22 x

def bigSigma1 (x : Nat) : Nat := rotr 6 x ^^^ rotr 11 x ^^^ rotr 25 x

def smallSigma0 (x : Nat) : Nat := rotr 7 x ^^^ rotr 18 x ^^^ (x >>> 3)

def smallSigma1 (x : Nat) : Nat := rotr 17 x ^^^ rotr 19 x ^^^ (x >>> 10)

def chF (x y z : Nat) : Nat := (x &&& y) ^^^ ((x ^^^ 4294967295) &&& z)

def majF (x y z : Nat) : Nat := (x &&& y) ^^^ (x &&& z) ^^^ (y &&& z)

/-- The SHA-256 round constants (FIPS 180-4), written in decimal. -/
def sha256K : List Nat :=
  [1116352408, 1899447441, 3049323471, 3921009573, 961987163,
   1508970993, 2453635748, 2870763221, 3624381080, 310598401,
   607225278, 1426881987, 1925078388, 2162078206, 2614888103,
   3248222580, 3835390401, 4022224774, 264347078, 604807628,
   770255983, 1249150122, 1555081692, 1996064986, 2554220882,
   2821834349, 2952996808, 3210313671, 3336571891, 3584528711,
   113926993, 338241895, 666307205, 773529912, 1294757372,
   1396182291, 1695183700, 1986661051, 2177026350, 2456956037,
   2730485921, 2820302411, 3259730800, 3345764771, 3516065817,
   3600352804, 4094571909, 275423344, 430227734, 506948616,
   659060556, 883997877, 958139571, 1322822218, 1537002063,
   1747873779, 1955562222, 2024104815, 2227730452, 2361852424,
   2428436474, 2756734187, 3204031479, 3329325298]

/-- The eight 32-bit words of the SHA-256 hash state. -/
structure Hash8 where
  a : Nat
  b : Nat
  c : Nat
  d : Nat
  e : Nat
  f : Nat
  g : Nat
  h : Nat
deriving Repr, DecidableEq

/-- SHA-256 initial hash value (FIPS 180-4), written in decimal. -/
def sha256H0 : Hash8 :=
  ⟨1779033703, 3144134277, 1013904242, 2773480762,
   1359893119, 2600822924, 528734635, 1541459225⟩

/-- `k` bytes of `n`, big-endian. -/
def beBytes : Nat → Nat → List Nat
  | 0, _ => []
  | k + 1, n => ((n >>> (8 * k)) % 256) :: beBytes k n

/-- SHA-256 message padding: a `0x80` byte, zeros to 56 mod 64, then the
bit length as 8 big-endian bytes. -/
def padMessage (msg : List Nat) : List Nat :=
  let L := msg.length
  let k := (119 - L % 64) % 64
  msg ++ [128] ++ List.replicate k 0 ++ beBytes 8 (8 * L)

/-- Split `n` leading 64-byte blocks off a byte list. -/
def toBlocksGo : Nat → List Nat → List (List Nat)
  | 0, _ => []
  | n + 1, bs => bs.take 64 :: toBlocksGo n (bs.drop 64)

/-- Split a padded byte list into 64-byte blocks. -/
def toBlocks (bs : List Nat) : List (List Nat) :=
  toBlocksGo (bs.length / 64) bs

/-- Read `n` big-endian 32-bit words off a byte list. -/
def bytesToWordsGo : Nat → List Nat → List Nat
  | 0, _ => []
  | n + 1, bs =>
      (bs.getD 0 0 * 16777216 + bs.getD 1 0 * 65536 +
        bs.getD 2 0 * 256 + bs.getD 3 0) :: bytesToWordsGo n (bs.drop 4)

/-- SHA-256 message schedule extension: prepend `n` more words to the
reversed schedule `acc`. -/
def extendW : Nat → List Nat → List Nat
  | 0, acc => acc
  | n + 1, acc =>
      extendW n
        (w32 (smallSigma1 (acc.getD 1 0) + acc.getD 6 0 +
            smallSigma0 (acc.getD 14 0) + acc.getD 15 0) :: acc)

/-- The 64-word SHA-256 message schedule of one block. -/
def msgSchedule (block : List Nat) : List Nat :=
  (extendW 48 (bytesToWordsGo 16 block).reverse).reverse

/-- One SHA-256 compression round, consuming one `(K, W)` pair. -/
def roundStep (st : Hash8) (kw : Nat × Nat) : Hash8 :=
  let t1 := st.h + bigSigma1 st.e + chF st.e st.f st.g + kw.1 + kw.2
  let t2 := bigSigma0 st.a + majF st.a st.b st.c
  ⟨w32 (t1 + t2), st.a, st.b, st.c, w32 (st.d + t1), st.e, st.f, st.g⟩

/-- Pointwise mod-2³² addition of hash states. -/
def add8 (x y : Hash8) : Hash8 :=
  ⟨w32 (x.a + y.a), w32 (x.b + y.b), w32 (x.c + y.c), w32 (x.d + y.d),
   w32 (x.e + y.e), w32 (x.f + y.f), w32 (x.g + y.g), w32 (x.h + y.h)⟩

/-- SHA-256 compression of one 64-byte block into the running state. -/
def compressBlock (st : Hash8) (block : List Nat) : Hash8 :=
  add8 st ((sha256K.zip (msgSchedule block)).foldl roundStep st)

/-- The SHA-256 state after hashing a byte message. -/
def sha256Words (msg : List Nat) : Hash8 :=
  (toBlocks (padMessage msg)).foldl compressBlock sha256H0

/-- The lowercase hexadecimal alphabet. -/
def hexDigits : List Char :=
  chars "0123456789abcdef"

/-- The hex character of `n % 16`. -/
def hexDigit (n : Nat) : Char :=
  hexDigits.getD (n % 16) '0'

/-- A 32-bit word as 8 hex characters, big-endian. -/
def toHex8 (n : Nat) : List Char :=
  [hexDigit (n / 268435456), hexDigit (n / 16777216), hexDigit (n / 1048576),
   hexDigit (n / 65536), hexDigit (n / 4096), hexDigit (n / 256),
   hexDigit (n / 16), hexDigit n]

/-- Render a hash state as the 64-character hex digest
(`.digest("hex")`). -/
def hash8Hex (st : Hash8) : List Char :=
  toHex8 st.a ++ toHex8 st.b ++ toHex8 st.c ++ toHex8 st.d ++
  toHex8 st.e ++ toHex8 st.f ++ toHex8 st.g ++ toHex8 st.h

/-- `crypto.createHash("sha256").update(value).digest("hex")` from
`addString`. -/
def sha256hex (v : List Char) : List Char :=
  hash8Hex (sha256Words (utf8 v))

/-! ## Data model: the `String` interface of `src/app.ts` (all fields
optional, as in the TypeScript declaration) -/

/-- The `properties` object of a stored record. -/
structure Properties where
  length : Option Nat
  is_palindrome : Option Bool
  unique_characters : Option Nat
  word_count : Option Nat
  sha256_hash : Option (List Char)
  character_frequency_map : Option (List (Char × Nat))
deriving Repr, DecidableEq

/-- One stored record (the `String` interface). -/
structure StrRecord where
  id : Option (List Char)
  value : Option (List Char)
  properties : Option Properties
  created_at : Option (List Char)
deriving Repr, DecidableEq

/-- The property block `addString` computes for a normalized value. -/
def deriveProps (v : List Char) : Properties :=
  { length := some v.length
    is_palindrome := some (is_palindrome v)
    unique_characters := some (unique_characters v)
    word_count := some (word_count v)
    sha256_hash := some (sha256hex v)
    character_frequency_map := some (character_frequency_map v) }

/-- The record `addString` appends for a normalized value `v` (with the
`new Date().toISOString()` timestamp passed in as `now`). -/
def mkRecord (v : List Char) (now : List Char) : StrRecord :=
  { id := some (sha256hex v)
    value := some v
    properties := some (deriveProps v)
    created_at := some now }

/-- The request body's `value` as seen by `addString`: absent
(`undefined`/`null`), a non-string, or a string. -/
inductive Body
  | absent
  | notStr
  | str (s : List Char)

/-- The error conditions the handlers report (each a fixed status code and
message in the source; message text elided). -/
inductive Err
  | valueRequired
  | valueMustBeString
  | stringAlreadyExists
  | isPalindromeInvalid
  | minLengthInvalid
  | maxLengthInvalid
  | wordCountInvalid
  | minGreaterThanMax
  | queryRequired
  | queryMustBeString
deriving Repr, DecidableEq

/-- Response of `addString`. -/
inductive AddResp
  | err (status : Nat) (e : Err)
  | created (status : Nat) (r : StrRecord)
deriving Repr, DecidableEq

/-- The `addString` handler (`src/app.ts` lines 55-118).  The final
`_writeOk` argument is the outcome of the `fs.writeFile` durability write;
the source does not `await` that promise (line 100), so no part of the
result depends on it. -/
def addString (store : List StrRecord) (body : Body) (now : List Char)
    (_writeOk : Bool) : AddResp × List StrRecord :=
  match body with
  | .absent => (.err 400 .valueRequired, store)
  | .notStr => (.err 422 .valueMustBeString, store)
  | .str s =>
      let value := toLowerList s
      if (store.find? (fun r => r.value == some value)).isSome then
        (.err 409 .stringAlreadyExists, store)
      else
        let r := mkRecord value now
        (.created 201 r, store ++ [r])

/-! ## Structured filter engine (`getAllStringsWithFiltering`) -/

/-- A query-parameter value as delivered by Express: a string, an array of
strings, or (for completeness of the `typeof` tests) a boolean. -/
inductive QVal
  | str (s : List Char)
  | arr (xs : List (List Char))
  | boolv (b : Bool)

/-- The raw query parameters of `getAllStringsWithFiltering`. -/
structure RawQuery where
  is_palindrome : Option QVal
  min_length : Option QVal
  max_length : Option QVal
  word_count : Option QVal
  contains_character : Option QVal

/-- A `RawQuery` with no parameter provided. -/
def emptyQuery : RawQuery := ⟨none, none, none, none, none⟩

/-- All-digit test for the decimal part of a JavaScript numeric literal. -/
def allDigits (l : List Char) : Bool :=
  l.all (fun c => '0' ≤ c && c ≤ '9')

/-- Numeric value of a digit string. -/
def natOfDigits (l : List Char) : Nat :=
  l.foldl (fun n c => 10 * n + (c.toNat - 48)) 0

/-- JavaScript `Number()` on an already-trimmed string, modelled on finite
decimal literals (optional sign, integer part, optional fractional part);
all other inputs give `none` (`NaN` or non-finite, both of which the
handler maps to its invalid marker). -/
def jsNumber (s : List Char) : Option ℚ :=
  let core : List Char → Option ℚ := fun l =>
    let intPart := l.takeWhile (fun c => c ≠ '.')
    let rest := l.dropWhile (fun c => c ≠ '.')
    match rest with
    | [] => if l ≠ [] && allDigits l then some (natOfDigits l) else none
    | _ :: frac =>
        if allDigits intPart && allDigits frac &&
            (intPart ≠ [] || frac ≠ []) then
          some ((natOfDigits intPart : ℚ) +
            (natOfDigits frac : ℚ) / ((10 : ℚ) ^ frac.length))
        else none
  match s with
  | [] => some 0
  | '+' :: rest => core rest
  | '-' :: rest => (core rest).map Neg.neg
  | _ => core s

/-- Result of `parseNumberParam`: `undefined`, `null` (invalid), or a
finite number. -/
inductive NumParse
  | absent
  | invalid
  | val (q : ℚ)
deriving DecidableEq

/-- The provided numeric filter value, if any. -/
def NumParse.toOption : NumParse → Option ℚ
  | .val q => some q
  | _ => none

/-- `parseNumberParam` from `getAllStringsWithFiltering` (lines 165-179):
arrays contribute their first element, the scalar is stringified and
trimmed, and an empty or non-numeric result is invalid. -/
def parseNumberParam (p : Option QVal) : NumParse :=
  match p with
  | none => .absent
  | some q =>
      let scalar : Option QVal :=
        match q with
        | .arr xs => xs.head?.map QVal.str
        | x => some x
      let s : List Char :=
        match scalar with
        | none => chars "undefined"
        | some (.str t) => t
        | some (.boolv true) => chars "true"
        | some (.boolv false) => chars "false"
        | some (.arr _) => chars "undefined"
      let s := trimList s
      if s = [] then .invalid
      else
        match jsNumber s with
        | none => .invalid
        | some n => .val n

/-- Result of the `is_palindrome` parameter parse. -/
inductive BoolParse
  | absent
  | invalid
  | val (b : Bool)
deriving DecidableEq

/-- The provided boolean filter value, if any. -/
def BoolParse.toOption : BoolParse → Option Bool
  | .val b => some b
  | _ => none

/-- The tolerant `is_palindrome` parse (lines 144-162): booleans pass
through, the strings `true`/`false` (case-insensitive) parse, anything
else is invalid. -/
def parseBoolParam (p : Option QVal) : BoolParse :=
  match p with
  | none => .absent
  | some (.boolv b) => .val b
  | some (.str s) =>
      let lower := toLowerList s
      if lower = chars "true" then .val true
      else if lower = chars "false" then .val false
      else .invalid
  | some (.arr _) => .invalid

/-- The `contains_character` parse (lines 208-224): trim every provided
entry, drop the empty ones, and treat an all-empty parameter as not
provided. -/
def parseContains (p : Option QVal) : Option (List (List Char)) :=
  match p with
  | none => none
  | some (.arr xs) =>
      let vals := (xs.map trimList).filter (fun s => s.length > 0)
      if vals.length = 0 then none else some vals
  | some (.str s) =>
      let t := trimList s
      let vals := if t.length > 0 then [t] else []
      if vals.length = 0 then none else some vals
  | some (.boolv b) =>
      some [if b then chars "true" else chars "false"]

/-- The typed filter set applied after validation. -/
structure Filters where
  is_palindrome : Option Bool
  min_length : Option ℚ
  max_length : Option ℚ
  word_count : Option ℚ
  contains_character : Option (List (List Char))

/-- The filter set with no filter provided. -/
def noFilters : Filters := ⟨none, none, none, none, none⟩

/-- `Boolean(str.properties?.is_palindrome)`. -/
def propIsPal (r : StrRecord) : Bool :=
  (r.properties.bind Properties.is_palindrome).getD false

/-- `str.properties?.length ?? 0`. -/
def propLen (r : StrRecord) : Nat :=
  (r.properties.bind Properties.length).getD 0

/-- `str.properties?.word_count ?? 0`. -/
def propWC (r : StrRecord) : Nat :=
  (r.properties.bind Properties.word_count).getD 0

/-- The `contains_character` record test (lines 262-268): a record matches
if its value includes any one of the provided substrings. -/
def containsPred (vals : List (List Char)) (r : StrRecord) : Bool :=
  match r.value with
  | none => false
  | some v => vals.any (fun sub => jsIncludes v sub)

/-- The cumulative filter application of `getAllStringsWithFiltering`
(lines 227-273): each provided family filters the list in turn;
`contains_character` keeps records whose value includes any provided
substring. -/
def applyFilters (f : Filters) (rs : List StrRecord) : List StrRecord :=
  let rs := match f.is_palindrome with
    | none => rs
    | some b => rs.filter (fun r => propIsPal r == b)
  let rs := match f.min_length with
    | none => rs
    | some q => rs.filter (fun r => decide ((propLen r : ℚ) ≥ q))
  let rs := match f.max_length with
    | none => rs
    | some q => rs.filter (fun r => decide ((propLen r : ℚ) ≤ q))
  let rs := match f.word_count with
    | none => rs
    | some q => rs.filter (fun r => decide ((propWC r : ℚ) = q))
  match f.contains_character with
  | none => rs
  | some vals =>
      if vals.length > 0 then rs.filter (containsPred vals) else rs

/-- Response of `getAllStringsWithFiltering`. -/
inductive ListResp
  | err (status : Nat) (e : Err)
  | ok (status : Nat) (data : List StrRecord) (count : Nat)
deriving Repr, DecidableEq

/-- Whether both length bounds parsed and `min_length > max_length`
(lines 198-206). -/
def minMaxConflict : NumParse → NumParse → Bool
  | .val a, .val b => decide (a > b)
  | _, _ => false

/-- The `getAllStringsWithFiltering` handler (lines 139-285): validate the
parameters in source order, then apply the typed filters over the store. -/
def getAllStringsWithFiltering (store : List StrRecord) (raw : RawQuery) :
    ListResp :=
  let pb := parseBoolParam raw.is_palindrome
  let pmin := parseNumberParam raw.min_length
  let pmax := parseNumberParam raw.max_length
  let pwc := parseNumberParam raw.word_count
  if pb = .invalid then .err 400 .isPalindromeInvalid
  else if pmin = .invalid then .err 400 .minLengthInvalid
  else if pmax = .invalid then .err 400 .maxLengthInvalid
  else if pwc = .invalid then .err 400 .wordCountInvalid
  else if minMaxConflict pmin pmax then .err 400 .minGreaterThanMax
  else
    let f : Filters :=
      { is_palindrome := pb.toOption
        min_length := pmin.toOption
        max_length := pmax.toOption
        word_count := pwc.toOption
        contains_character := parseContains raw.contains_character }
    let data := applyFilters f store
    .ok 200 data data.length

/-! ## Natural-language translator (`filterByNaturalLanguage`) -/

/-- Response of `filterByNaturalLanguage`. -/
inductive NLResp
  | err (status : Nat) (e : Err)
  | ok (status : Nat) (data : List StrRecord) (count : Nat)
      (original : List Char) (parsed_filters : List String)
      (message : Option String)
deriving Repr, DecidableEq

/-- The predicate of the canned phrase
`"all single word palindromic strings"`. -/
def nlPalinSingleWordPred (r : StrRecord) : Bool :=
  (r.properties.bind Properties.is_palindrome) == some true && propWC r == 1

/-- The predicate of the canned phrase
`"strings longer than 10 characters"`. -/
def nlLongerThan10Pred (r : StrRecord) : Bool :=
  propLen r > 10

/-- The predicate of the canned phrase
`"palindromic strings that contain the first vowel"`. -/
def nlPalinFirstVowelPred (r : StrRecord) : Bool :=
  match r.properties.bind Properties.is_palindrome, r.value with
  | some true, some v => jsIncludes (toLowerList v) (chars "a")
  | _, _ => false

/-- The predicate of the canned phrase
`"strings containing the letter z"`. -/
def nlContainsZPred (r : StrRecord) : Bool :=
  match r.value with
  | some v => jsIncludes (toLowerList v) (chars "z")
  | none => false

/-- The `filterByNaturalLanguage` handler (lines 287-370): mandatory query,
normalized by trim + lower-case, dispatched over the fixed phrase table;
an unmatched phrase yields the explicit unparsed success result. -/
def filterByNaturalLanguage (store : List StrRecord) (raw : Option QVal) :
    NLResp :=
  match raw with
  | none => .err 400 .queryRequired
  | some qv =>
      let queryStr : Option (List Char) :=
        match qv with
        | .str s => some s
        | .arr xs => xs.head?
        | .boolv _ => none
      match queryStr with
      | none => .err 400 .queryMustBeString
      | some original =>
          let query := toLowerList (trimList original)
          if query = chars "all single word palindromic strings" then
            let data := store.filter nlPalinSingleWordPred
            .ok 200 data data.length original
              ["is_palindrome: true", "word_count: 1"] none
          else if query = chars "strings longer than 10 characters" then
            let data := store.filter nlLongerThan10Pred
            .ok 200 data data.length original ["min_length: 11"] none
          else if query = chars "palindromic strings that contain the first vowel" then
            let data := store.filter nlPalinFirstVowelPred
            .ok 200 data data.length original
              ["is_palindrome: true", "contains_character: \"a\""] none
          else if query = chars "strings containing the letter z" then
            let data := store.filter nlContainsZPred
            .ok 200 data data.length original
              ["contains_character: \"z\""] none
          else
            .ok 200 [] 0 original []
              (some "Could not parse natural language query")

/-! ## Deletion (`deleteString`) -/

/-- Response of `deleteString`. -/
inductive DelResp
  | notFound (status : Nat)
  | deleted (status : Nat)
  | serverError (status : Nat)
deriving Repr, DecidableEq

/-- The `deleteString` handler (lines 372-395).  The path parameter is
taken already URI-decoded.  Unlike `addString`, the durability write is
awaited (line 388): its failure lands in the `catch` and produces the 500
response, after the in-memory collection has already been replaced. -/
def deleteString (store : List StrRecord) (param : Option (List Char))
    (writeOk : Bool) : DelResp × List StrRecord :=
  match param with
  | none => (.notFound 404, store)
  | some s =>
      if s = [] then (.notFound 404, store)
      else
        let lowerString := toLowerList s
        match store.findIdx? (fun r => r.value == some lowerString) with
        | none => (.notFound 404, store)
        | some i =>
            let updated := store.eraseIdx i
            if writeOk then (.deleted 204, updated)
            else (.serverError 500, updated)

/-! ## Lemmas: case normalization -/

theorem toNat_ofNat_valid (n : Nat) (hv : n.isValidChar) :
    (Char.ofNat n).toNat = n := by
  rw [Char.ofNat, dif_pos hv]
  simp [Char.ofNatAux, Char.toNat, UInt32.toNat]

theorem toLower_toLower (c : Char) : c.toLower.toLower = c.toLower := by
  unfold Char.toLower
  by_cases h : c.toNat ≥ 65 ∧ c.toNat ≤ 90
  · rw [if_pos h]
    have hv : (c.toNat + 32).isValidChar := Or.inl (by omega)
    rw [if_neg (by rw [toNat_ofNat_valid _ hv]; omega)]
  · rw [if_neg h, if_neg h]

theorem toLower_not_upper (c : Char) :
    c.toLower.toNat < 65 ∨ 90 < c.toLower.toNat := by
  unfold Char.toLower
  by_cases h : c.toNat ≥ 65 ∧ c.toNat ≤ 90
  · rw [if_pos h]
    have hv : (c.toNat + 32).isValidChar := Or.inl (by omega)
    rw [toNat_ofNat_valid _ hv]
    omega
  · rw [if_neg h]
    omega

theorem toLowerList_idem (l : List Char) :
    toLowerList (toLowerList l) = toLowerList l := by
  unfold toLowerList
  rw [List.map_map]
  exact List.map_congr_left fun c _ => toLower_toLower c

/-! ## Lemmas: word counting -/

theorem countTokensGo_cons (c : Char) (rest : List Char) (b : Bool) :
    countTokensGo (c :: rest) b =
      if isWs c then countTokensGo rest false
      else (if b then 0 else 1) + countTokensGo rest true := rfl

theorem wsRunsGo_cons (c : Char) (rest : List Char) (b : Bool) :
    wsRunsGo (c :: rest) b =
      if isWs c then (if b then 0 else 1) + wsRunsGo rest true
      else wsRunsGo rest false := rfl

theorem splitWsGo_cons_some (c : Char) (rest acc : List Char) :
    splitWsGo (c :: rest) (some acc) =
      if isWs c then acc.reverse :: splitWsGo rest none
      else splitWsGo rest (some (c :: acc)) := rfl

theorem splitWsGo_cons_none (c : Char) (rest : List Char) :
    splitWsGo (c :: rest) none =
      if isWs c then splitWsGo rest none
      else splitWsGo rest (some [c]) := rfl

theorem splitWsGo_length (l : List Char) :
    ∀ acc, (splitWsGo l (some acc)).length = 1 + wsRunsGo l false ∧
      (splitWsGo l none).length = 1 + wsRunsGo l true := by
  induction l with
  | nil => intro acc; simp [splitWsGo, wsRunsGo]
  | cons c rest ih =>
      intro acc
      rw [splitWsGo_cons_some, splitWsGo_cons_none, wsRunsGo_cons, wsRunsGo_cons]
      by_cases h : isWs c
      · simp only [h, if_true, List.length_cons]
        constructor
        · rw [(ih []).2]; simp; omega
        · rw [(ih []).2]; simp
      · simp only [h, if_false, Bool.false_eq_true]
        exact ⟨(ih (c :: acc)).1, (ih [c]).1⟩

theorem countTokensGo_eq (l : List Char)
    (hE : ∀ c, l.getLast? = some c → isWs c = false) :
    countTokensGo l true = wsRunsGo l false ∧
      (l ≠ [] → countTokensGo l false = 1 + wsRunsGo l true) := by
  induction l with
  | nil => exact ⟨rfl, fun h => absurd rfl h⟩
  | cons c rest ih =>
      rw [countTokensGo_cons, countTokensGo_cons, wsRunsGo_cons, wsRunsGo_cons]
      cases rest with
      | nil =>
          have hc : isWs c = false := hE c rfl
          simp [hc, countTokensGo, wsRunsGo]
      | cons d rest' =>
          have hE' : ∀ x, (d :: rest').getLast? = some x → isWs x = false :=
            fun x hx => hE x (by rwa [List.getLast?_cons_cons])
          obtain ⟨ihA, ihB⟩ := ih hE'
          have hB := ihB (by simp)
          by_cases h : isWs c
          · simp only [h, if_true]
            refine ⟨?_, fun _ => ?_⟩
            · rw [hB]; simp
            · rw [hB]; simp
          · simp only [h, if_false, Bool.false_eq_true]
            refine ⟨?_, fun _ => ?_⟩
            · rw [ihA]; simp
            · rw [ihA]

theorem trimList_getLast?_not_ws (l : List Char) :
    ∀ c, (trimList l).getLast? = some c → isWs c = false := by
  intro c hc
  unfold trimList at hc
  rw [List.getLast?_reverse] at hc
  have h := List.head?_dropWhile_not isWs (l.dropWhile isWs).reverse
  rw [hc] at h
  exact h

theorem trimList_head?_not_ws (l : List Char) :
    ∀ c, (trimList l).head? = some c → isWs c = false := by
  intro c hc
  unfold trimList at hc
  rw [List.head?_reverse] at hc
  obtain ⟨pre, hpre⟩ := List.dropWhile_suffix
      (l := (l.dropWhile isWs).reverse) isWs
  have hlast : ((l.dropWhile isWs).reverse).getLast? = some c := by
    rw [← hpre, List.getLast?_append, hc]
    rfl
  rw [List.getLast?_reverse] at hlast
  have h := List.head?_dropWhile_not isWs l
  rw [hlast] at h
  exact h

theorem word_count_eq_countTokens (v : List Char) :
    word_count v = countTokens (trimList v) := by
  unfold word_count countTokens
  by_cases h : trimList v = []
  · simp [h, countTokensGo]
  · rw [if_neg h]
    obtain ⟨c, t, ht⟩ := List.exists_cons_of_ne_nil h
    have hc : isWs c = false := by
      apply trimList_head?_not_ws v
      rw [ht]
      rfl
    have hends := trimList_getLast?_not_ws v
    rw [ht] at hends ⊢
    have hcount := (countTokensGo_eq (c :: t) hends).2 (by simp)
    simp only [splitWs]
    rw [hcount, (splitWsGo_length (c :: t) []).1, wsRunsGo_cons, wsRunsGo_cons]
    simp [hc]

/-! ## Lemmas: distinct-character count -/

theorem jsSet_foldl (v : List Char) :
    ∀ s : List Char, s.Nodup →
      (v.foldl jsSetInsert s).Nodup ∧
        (v.foldl jsSetInsert s).toFinset = s.toFinset ∪ v.toFinset := by
  induction v with
  | nil => intro s hs; simp [hs]
  | cons c rest ih =>
      intro s hs
      have step : (jsSetInsert s c).Nodup ∧
          (jsSetInsert s c).toFinset = insert c s.toFinset := by
        unfold jsSetInsert
        by_cases h : c ∈ s
        · rw [if_pos h]
          exact ⟨hs, by simp [Finset.insert_eq_self.2 (List.mem_toFinset.2 h)]⟩
        · rw [if_neg h]
          constructor
          · simp [List.nodup_append, hs, h]
          · ext x
            simp [or_comm]
      obtain ⟨h1, h2⟩ := ih (jsSetInsert s c) step.1
      rw [List.foldl_cons]
      refine ⟨h1, ?_⟩
      rw [h2, step.2, List.toFinset_cons]
      ext x
      simp [or_comm, or_assoc, or_left_comm]

theorem unique_characters_eq_card (v : List Char) :
    unique_characters v = v.toFinset.card := by
  obtain ⟨h1, h2⟩ := jsSet_foldl v [] List.nodup_nil
  unfold unique_characters jsSet
  rw [← List.toFinset_card_of_nodup h1, h2]
  simp

/-! ## Lemmas: character frequency map -/

theorem lookup_freqBump (m : List (Char × Nat)) (c d : Char) :
    (freqBump m c).lookup d =
      if d = c then some ((m.lookup c).getD 0 + 1) else m.lookup d := by
  induction m with
  | nil =>
      by_cases h : d = c
      · subst h
        simp [freqBump, List.lookup]
      · simp [freqBump, List.lookup, h, beq_false_of_ne h]
  | cons p rest ih =>
      obtain ⟨k, n⟩ := p
      by_cases hk : k = c
      · subst hk
        by_cases h : d = k
        · subst h
          simp [freqBump, List.lookup]
        · simp [freqBump, List.lookup, h, beq_false_of_ne h]
      · have hstep : freqBump ((k, n) :: rest) c = (k, n) :: freqBump rest c := by
          simp [freqBump, hk]
        rw [hstep]
        by_cases h : d = c
        · subst h
          have hdk : (d == k) = false := by
            simp only [beq_eq_false_iff_ne, ne_eq]
            intro hkd
            exact hk hkd.symm
          simp [List.lookup, hdk, ih]
        · by_cases hdk : d = k
          · subst hdk
            simp [List.lookup, ih, h]
          · simp [List.lookup, beq_false_of_ne hdk, ih, h]

theorem lookup_freq_foldl (v : List Char) :
    ∀ (m : List (Char × Nat)) (d : Char),
      (v.foldl freqBump m).lookup d =
        if d ∈ v ∨ (m.lookup d).isSome then
          some ((m.lookup d).getD 0 + v.count d)
        else none := by
  induction v with
  | nil =>
      intro m d
      simp only [List.foldl_nil, List.not_mem_nil, false_or, List.count_nil]
      cases h : m.lookup d <;> simp [h]
  | cons c rest ih =>
      intro m d
      rw [List.foldl_cons, ih (freqBump m c) d, lookup_freqBump]
      by_cases h : d = c
      · subst h
        simp only [if_pos rfl, List.mem_cons, true_or, if_true,
          Option.isSome_some, or_true, List.count_cons_self, Option.getD_some]
        congr 1
        omega
      · simp only [if_neg h, List.mem_cons, List.count_cons_of_ne h]
        by_cases hd : d ∈ rest ∨ ((m.lookup d).isSome = true)
        · rw [if_pos hd, if_pos]
          rcases hd with hd | hd
          · exact Or.inl (Or.inr hd)
          · exact Or.inr hd
        · rw [if_neg hd, if_neg]
          intro hcon
          apply hd
          rcases hcon with (hc | hr) | hs
          · exact absurd hc h
          · exact Or.inl hr
          · exact Or.inr hs

theorem lookup_character_frequency_map (v : List Char) (c : Char) (k : Nat) :
    (character_frequency_map v).lookup c = some k ↔ c ∈ v ∧ k = v.count c := by
  unfold character_frequency_map
  rw [lookup_freq_foldl]
  simp only [List.lookup, Option.isSome_none, Bool.false_eq_true, or_false]
  by_cases h : c ∈ v
  · simp only [if_pos h, h, true_and, if_true, Option.getD_none, Nat.zero_add,
      Option.some_inj]
    exact eq_comm
  · simp [h]

/-! ## Lemmas: digest shape -/

theorem hexDigit_mem (n : Nat) : hexDigit n ∈ hexDigits := by
  unfold hexDigit
  by_cases h : n % 16 < hexDigits.length
  · rw [List.getD_eq_getElem _ _ h]
    exact List.getElem_mem h
  · rw [List.getD_eq_default _ _ (Nat.le_of_not_lt h)]
    decide

theorem toHex8_length (n : Nat) : (toHex8 n).length = 8 := rfl

theorem toHex8_mem (n : Nat) : ∀ c ∈ toHex8 n, c ∈ hexDigits := by
  intro c hc
  simp only [toHex8, List.mem_cons, List.not_mem_nil, or_false] at hc
  rcases hc with h | h | h | h | h | h | h | h <;>
    (subst h; exact hexDigit_mem _)

theorem sha256hex_length (v : List Char) : (sha256hex v).length = 64 := by
  unfold sha256hex hash8Hex
  simp [toHex8_length]

theorem sha256hex_mem_hexDigits (v : List Char) :
    ∀ c ∈ sha256hex v, c ∈ hexDigits := by
  intro c hc
  unfold sha256hex hash8Hex at hc
  simp only [List.mem_append] at hc
  rcases hc with ((((((h | h) | h) | h) | h) | h) | h) | h <;>
    exact toHex8_mem _ c h

/-! ## Lemmas: structured filtering as one predicate -/

/-- The conjunction of all provided filter-family predicates, in source
order. -/
def filterPred (f : Filters) (r : StrRecord) : Bool :=
  (match f.is_palindrome with
    | none => true
    | some b => propIsPal r == b) &&
  (match f.min_length with
    | none => true
    | some q => decide ((propLen r : ℚ) ≥ q)) &&
  (match f.max_length with
    | none => true
    | some q => decide ((propLen r : ℚ) ≤ q)) &&
  (match f.word_count with
    | none => true
    | some q => decide ((propWC r : ℚ) = q)) &&
  (match f.contains_character with
    | none => true
    | some vals => if vals.length > 0 then containsPred vals r else true)

theorem applyFilters_eq_filter (f : Filters) (rs : List StrRecord) :
    applyFilters f rs = rs.filter (filterPred f) := by
  obtain ⟨ip, mn, mx, wc, cc⟩ := f
  unfold applyFilters filterPred
  cases ip <;> cases mn <;> cases mx <;> cases wc <;> rcases cc with _ | vals <;>
    first
    | (by_cases hv : vals.length > 0 <;>
        simp [hv, List.filter_filter, Bool.and_comm, Bool.and_left_comm,
          Bool.and_assoc])
    | simp [List.filter_filter, Bool.and_comm, Bool.and_left_comm,
        Bool.and_assoc]

theorem beq_nat_decide (n m : Nat) : (n == m) = decide (n = m) := by
  by_cases h : n = m <;> simp [h]

theorem applyFilters_sublist (f : Filters) (rs : List StrRecord) :
    List.Sublist (applyFilters f rs) rs := by
  rw [applyFilters_eq_filter]
  exact List.filter_sublist rs

/-- `g` provides every filter `f` provides (with the same value), and
possibly more. -/
def extendsF (f g : Filters) : Prop :=
  (f.is_palindrome = none ∨ g.is_palindrome = f.is_palindrome) ∧
  (f.min_length = none ∨ g.min_length = f.min_length) ∧
  (f.max_length = none ∨ g.max_length = f.max_length) ∧
  (f.word_count = none ∨ g.word_count = f.word_count) ∧
  (f.contains_character = none ∨ g.contains_character = f.contains_character)

/-- Validity of a typed filter set: the only cross-field validation the
handler performs is the `min_length ≤ max_length` check. -/
def validFilters (f : Filters) : Prop :=
  ∀ a b, f.min_length = some a → f.max_length = some b → a ≤ b

theorem filterPred_mono (f g : Filters) (he : extendsF f g) (r : StrRecord)
    (h : filterPred g r = true) : filterPred f r = true := by
  obtain ⟨h1, h2, h3, h4, h5⟩ := he
  unfold filterPred at h ⊢
  simp only [Bool.and_eq_true] at h ⊢
  obtain ⟨⟨⟨⟨g1, g2⟩, g3⟩, g4⟩, g5⟩ := h
  refine ⟨⟨⟨⟨?_, ?_⟩, ?_⟩, ?_⟩, ?_⟩
  · rcases h1 with h1 | h1
    · rw [h1]
    · rw [h1] at g1
      exact g1
  · rcases h2 with h2 | h2
    · rw [h2]
    · rw [h2] at g2
      exact g2
  · rcases h3 with h3 | h3
    · rw [h3]
    · rw [h3] at g3
      exact g3
  · rcases h4 with h4 | h4
    · rw [h4]
    · rw [h4] at g4
      exact g4
  · rcases h5 with h5 | h5
    · rw [h5]
    · rw [h5] at g5
      exact g5

theorem applyFilters_mono (f g : Filters) (he : extendsF f g)
    (rs : List StrRecord) :
    List.Sublist (applyFilters g rs) (applyFilters f rs) := by
  rw [applyFilters_eq_filter, applyFilters_eq_filter]
  exact List.monotone_filter_right rs (fun r h => filterPred_mono f g he r h)

/-! ## Lemmas: natural-language phrases versus structured filters -/

/-- A record whose stored value is already fully lower-cased (true of
every record `addString` creates). -/
def lowerFixed (r : StrRecord) : Prop :=
  ∀ v, r.value = some v → toLowerList v = v

/-- Structured filters equivalent to
`"all single word palindromic strings"`. -/
def phrase1Filters : Filters :=
  { noFilters with is_palindrome := some true, word_count := some 1 }

/-- Structured filters equivalent to
`"strings longer than 10 characters"`. -/
def phrase2Filters : Filters :=
  { noFilters with min_length := some 11 }

/-- Structured filters equivalent to
`"palindromic strings that contain the first vowel"`. -/
def phrase3Filters : Filters :=
  { noFilters with
    is_palindrome := some true
    contains_character := some [chars "a"] }

/-- Structured filters equivalent to
`"strings containing the letter z"`. -/
def phrase4Filters : Filters :=
  { noFilters with contains_character := some [chars "z"] }

theorem nl1_eq_structured (store : List StrRecord) :
    store.filter nlPalinSingleWordPred = applyFilters phrase1Filters store := by
  rw [applyFilters_eq_filter]
  refine List.filter_congr fun r hr => ?_
  cases hb : r.properties.bind Properties.is_palindrome <;>
    simp [nlPalinSingleWordPred, filterPred, phrase1Filters, noFilters,
      propIsPal, hb, Nat.cast_eq_one, beq_nat_decide]

theorem nl2_eq_structured (store : List StrRecord) :
    store.filter nlLongerThan10Pred = applyFilters phrase2Filters store := by
  rw [applyFilters_eq_filter]
  refine List.filter_congr fun r hr => ?_
  have hq : ((11 : ℚ) ≤ (propLen r : ℚ)) ↔ propLen r > 10 := by
    rw [show ((11 : ℚ)) = ((11 : Nat) : ℚ) by norm_num, Nat.cast_le]
    omega
  simp [nlLongerThan10Pred, filterPred, phrase2Filters, noFilters, ge_iff_le, hq]

theorem nl3_eq_structured (store : List StrRecord)
    (hl : ∀ r ∈ store, lowerFixed r) :
    store.filter nlPalinFirstVowelPred = applyFilters phrase3Filters store := by
  rw [applyFilters_eq_filter]
  refine List.filter_congr fun r hr => ?_
  cases hb : r.properties.bind Properties.is_palindrome with
  | none =>
      cases hv : r.value <;>
        simp [nlPalinFirstVowelPred, filterPred, phrase3Filters, noFilters,
          propIsPal, containsPred, hb, hv]
  | some b =>
      cases hv : r.value with
      | none =>
          cases b <;>
            simp [nlPalinFirstVowelPred, filterPred, phrase3Filters, noFilters,
              propIsPal, containsPred, hb, hv]
      | some v =>
          have hlow : toLowerList v = v := hl r hr v hv
          cases b <;>
            simp [nlPalinFirstVowelPred, filterPred, phrase3Filters, noFilters,
              propIsPal, containsPred, hb, hv, hlow]

theorem nl4_eq_structured (store : List StrRecord)
    (hl : ∀ r ∈ store, lowerFixed r) :
    store.filter nlContainsZPred = applyFilters phrase4Filters store := by
  rw [applyFilters_eq_filter]
  refine List.filter_congr fun r hr => ?_
  cases hv : r.value with
  | none =>
      simp [nlContainsZPred, filterPred, phrase4Filters, noFilters,
        containsPred, hv]
  | some v =>
      have hlow : toLowerList v = v := hl r hr v hv
      simp [nlContainsZPred, filterPred, phrase4Filters, noFilters,
        containsPred, hv, hlow]

/-! ## Claim theorems -/

/-- C1: for every accepted string value, the derived properties equal the
reference definitions (length is the character count, is_palindrome holds
iff the value equals its reverse, unique_characters is the number of
distinct characters, word_count is the number of whitespace-delimited
tokens after trimming, character_frequency maps each distinct character to
its occurrence count); the empty string yields length 0, word_count 0,
is_palindrome true, unique_characters 0 and an empty map, and inserting
"Racecar" yields is_palindrome true, length 7, word_count 1,
unique_characters 4. -/
theorem claim_C1_derived_properties :
    (∀ v : List Char, (deriveProps v).length = some v.length) ∧
    (∀ v : List Char,
      ((deriveProps v).is_palindrome = some true ↔ v = v.reverse)) ∧
    (∀ v : List Char, (deriveProps v).unique_characters = some v.toFinset.card) ∧
    (∀ v : List Char,
      (deriveProps v).word_count = some (countTokens (trimList v))) ∧
    (∀ v : List Char,
      (deriveProps v).character_frequency_map = some (character_frequency_map v)) ∧
    (∀ (v : List Char) (c : Char) (k : Nat),
      ((character_frequency_map v).lookup c = some k ↔ c ∈ v ∧ k = v.count c)) ∧
    (deriveProps [] =
      { length := some 0
        is_palindrome := some true
        unique_characters := some 0
        word_count := some 0
        sha256_hash := some (sha256hex [])
        character_frequency_map := some [] }) ∧
    (∀ now : List Char, addString [] (.str (chars "Racecar")) now true =
      (.created 201 (mkRecord (chars "racecar") now),
        [mkRecord (chars "racecar") now])) ∧
    (deriveProps (chars "racecar")).is_palindrome = some true ∧
    (deriveProps (chars "racecar")).length = some 7 ∧
    (deriveProps (chars "racecar")).word_count = some 1 ∧
    (deriveProps (chars "racecar")).unique_characters = some 4 := by
  refine ⟨fun v => rfl, fun v => ?_, fun v => ?_, fun v => ?_, fun v => rfl,
    lookup_character_frequency_map, rfl, fun now => rfl, rfl, rfl, rfl, rfl⟩
  · simp [deriveProps, is_palindrome]
  · simp [deriveProps, unique_characters_eq_card]
  · simp [deriveProps, word_count_eq_countTokens]

/-- C2: insert stores the lower-cased value, the record id is the
fixed-length (64) hexadecimal SHA-256 digest of that normalized value, the
properties field sha256_hash equals the id, and two casings of the same
string yield the same id. -/
theorem claim_C2_identity_sha256 :
    (∀ v now : List Char, (mkRecord v now).id = some (sha256hex v) ∧
      (mkRecord v now).value = some v ∧
      (deriveProps v).sha256_hash = some (sha256hex v)) ∧
    (∀ (store : List StrRecord) (s now : List Char) (w : Bool),
      (store.find? (fun r => r.value == some (toLowerList s))).isSome = false →
      addString store (.str s) now w =
        (.created 201 (mkRecord (toLowerList s) now),
          store ++ [mkRecord (toLowerList s) now])) ∧
    (∀ v : List Char,
      (sha256hex v).length = 64 ∧ ∀ c ∈ sha256hex v, c ∈ hexDigits) ∧
    (∀ s : List Char,
      sha256hex (toLowerList s) = sha256hex (toLowerList (toLowerList s))) := by
  refine ⟨fun v now => ⟨rfl, rfl, rfl⟩, ?_,
    fun v => ⟨sha256hex_length v, sha256hex_mem_hexDigits v⟩,
    fun s => by rw [toLowerList_idem]⟩
  intro store s now w h
  simp [addString, h]

theorem claim_C2_witness :
    addString [] (.str (chars "Ab")) [] true =
      (.created 201 (mkRecord (toLowerList (chars "Ab")) []),
        [] ++ [mkRecord (toLowerList (chars "Ab")) []]) :=
  claim_C2_identity_sha256.2.1 [] (chars "Ab") [] true rfl

/-- C4 counterexample: with the durability write failing (final argument
`false`), `addString` still reports the 201 created success and keeps the
mutated collection, because the source never awaits `fs.writeFile`; so an
insertion does not complete its durability write before reporting success,
and an insertion write failure does not propagate as an error. -/
theorem claim_C4_counterexample :
    (addString [] (.str (chars "a")) [] false).1 =
      .created 201 (mkRecord (chars "a") []) ∧
    (addString [] (.str (chars "a")) [] false).2 = [mkRecord (chars "a") []] :=
  ⟨rfl, rfl⟩

/-- C4 (amended): the deletion handler awaits its durability write, so a
deletion write failure surfaces as the 500 error outcome (after the
in-memory removal) and deletion success is only reported when the write
succeeded; the insertion handler issues its durability write
fire-and-forget, so its entire result is independent of the write
outcome. -/
theorem claim_C4_amended :
    (∀ (store : List StrRecord) (b : Body) (now : List Char) (w w2 : Bool),
      addString store b now w = addString store b now w2) ∧
    (∀ (store : List StrRecord) (s : List Char) (i : Nat),
      s ≠ [] →
      store.findIdx? (fun r => r.value == some (toLowerList s)) = some i →
      deleteString store (some s) true = (.deleted 204, store.eraseIdx i) ∧
      deleteString store (some s) false = (.serverError 500, store.eraseIdx i)) := by
  refine ⟨fun store b now w w2 => rfl, ?_⟩
  intro store s i hs hidx
  constructor <;> simp [deleteString, hs, hidx]

theorem claim_C4_amended_witness :
    deleteString [mkRecord (chars "a") []] (some (chars "A")) false =
      (.serverError 500, ([mkRecord (chars "a") []].eraseIdx 0 : List StrRecord)) :=
  (claim_C4_amended.2 [mkRecord (chars "a") []] (chars "A") 0
    (by decide) (by decide)).2

/-- C7: inserting a fresh normalized value succeeds, re-inserting any
casing of the same normalized value is rejected with the 409 duplicate
error, the store is unchanged by the rejected attempt, and across both
attempts the store grows by exactly one record. -/
theorem claim_C7_duplicate_rejection (store : List StrRecord)
    (s s2 now now2 : List Char) (w w2 : Bool)
    (hdup : (store.find? (fun r => r.value == some (toLowerList s))).isSome = false)
    (hs2 : toLowerList s2 = toLowerList s) :
    addString store (.str s) now w =
      (.created 201 (mkRecord (toLowerList s) now),
        store ++ [mkRecord (toLowerList s) now]) ∧
    addString (store ++ [mkRecord (toLowerList s) now]) (.str s2) now2 w2 =
      (.err 409 .stringAlreadyExists,
        store ++ [mkRecord (toLowerList s) now]) ∧
    (store ++ [mkRecord (toLowerList s) now]).length = store.length + 1 := by
  refine ⟨by simp [addString, hdup], ?_, by simp⟩
  have hfind : ((store ++ [mkRecord (toLowerList s) now]).find?
      (fun r => r.value == some (toLowerList s2))).isSome = true := by
    rw [List.find?_isSome]
    exact ⟨mkRecord (toLowerList s) now, by simp, by simp [mkRecord, hs2]⟩
  simp only [addString]
  rw [if_pos hfind]

theorem claim_C7_witness :
    addString [] (.str (chars "racecar")) [] true =
      (.created 201 (mkRecord (toLowerList (chars "racecar")) []),
        [] ++ [mkRecord (toLowerList (chars "racecar")) []]) ∧
    addString ([] ++ [mkRecord (toLowerList (chars "racecar")) []])
        (.str (chars "Racecar")) [] true =
      (.err 409 .stringAlreadyExists,
        [] ++ [mkRecord (toLowerList (chars "racecar")) []]) ∧
    ([] ++ [mkRecord (toLowerList (chars "racecar")) []]).length =
      ([] : List StrRecord).length + 1 :=
  claim_C7_duplicate_rejection [] (chars "racecar") (chars "Racecar") [] []
    true true rfl (by decide)

/-- The scenario store holding the inserted values "zebra" and "apple". -/
def zebraAppleStore : List StrRecord :=
  [mkRecord (chars "zebra") [], mkRecord (chars "apple") []]

/-- C3: every canned phrase of the translator returns exactly the records
the structured filter engine returns for the equivalent structured
filters, over any store of lower-cased (insert-produced) records; over a
store containing "zebra" and "apple" the z-phrase returns only "zebra". -/
theorem claim_C3_nl_equals_structured :
    (∀ s now : List Char, lowerFixed (mkRecord (toLowerList s) now)) ∧
    (∀ store : List StrRecord, (∀ r ∈ store, lowerFixed r) →
      filterByNaturalLanguage store
          (some (.str (chars "all single word palindromic strings"))) =
        .ok 200 (applyFilters phrase1Filters store)
          (applyFilters phrase1Filters store).length
          (chars "all single word palindromic strings")
          ["is_palindrome: true", "word_count: 1"] none ∧
      filterByNaturalLanguage store
          (some (.str (chars "strings longer than 10 characters"))) =
        .ok 200 (applyFilters phrase2Filters store)
          (applyFilters phrase2Filters store).length
          (chars "strings longer than 10 characters")
          ["min_length: 11"] none ∧
      filterByNaturalLanguage store
          (some (.str (chars "palindromic strings that contain the first vowel"))) =
        .ok 200 (applyFilters phrase3Filters store)
          (applyFilters phrase3Filters store).length
          (chars "palindromic strings that contain the first vowel")
          ["is_palindrome: true", "contains_character: \"a\""] none ∧
      filterByNaturalLanguage store
          (some (.str (chars "strings containing the letter z"))) =
        .ok 200 (applyFilters phrase4Filters store)
          (applyFilters phrase4Filters store).length
          (chars "strings containing the letter z")
          ["contains_character: \"z\""] none) ∧
    filterByNaturalLanguage zebraAppleStore
        (some (.str (chars "strings containing the letter z"))) =
      .ok 200 [mkRecord (chars "zebra") []] 1
        (chars "strings containing the letter z")
        ["contains_character: \"z\""] none := by
  refine ⟨?_, ?_, ?_⟩
  · intro s now v hv
    have hval : toLowerList s = v := by
      simpa [mkRecord] using hv
    rw [← hval, toLowerList_idem]
  · intro store hl
    have n1 : toLowerList (trimList (chars "all single word palindromic strings")) =
        chars "all single word palindromic strings" := by decide
    have n2 : toLowerList (trimList (chars "strings longer than 10 characters")) =
        chars "strings longer than 10 characters" := by decide
    have n3 : toLowerList (trimList
        (chars "palindromic strings that contain the first vowel")) =
        chars "palindromic strings that contain the first vowel" := by decide
    have n4 : toLowerList (trimList (chars "strings containing the letter z")) =
        chars "strings containing the letter z" := by decide
    refine ⟨?_, ?_, ?_, ?_⟩
    · simp only [filterByNaturalLanguage, n1]
      rw [if_pos trivial, nl1_eq_structured]
    · simp only [filterByNaturalLanguage, n2]
      rw [if_pos trivial, nl2_eq_structured, if_neg (by decide)]
    · simp only [filterByNaturalLanguage, n3]
      rw [if_pos trivial, nl3_eq_structured store hl, if_neg (by decide),
        if_neg (by decide)]
    · simp only [filterByNaturalLanguage, n4]
      rw [if_pos trivial, nl4_eq_structured store hl, if_neg (by decide),
        if_neg (by decide), if_neg (by decide)]
  · rfl

theorem claim_C3_witness :
    filterByNaturalLanguage zebraAppleStore
        (some (.str (chars "strings containing the letter z"))) =
      .ok 200 (applyFilters phrase4Filters zebraAppleStore)
        (applyFilters phrase4Filters zebraAppleStore).length
        (chars "strings containing the letter z")
        ["contains_character: \"z\""] none := by
  have h := (claim_C3_nl_equals_structured.2.1 zebraAppleStore ?_).2.2.2
  · exact h
  · intro r hr v hv
    simp only [zebraAppleStore, List.mem_cons, List.mem_singleton,
      List.not_mem_nil, or_false] at hr
    rcases hr with hr | hr <;> subst hr <;>
      (simp only [mkRecord] at hv
       cases hv
       decide)

/-- C8: any phrase outside the fixed table yields the explicit successful
unparsed outcome (status 200, empty data, count 0, echo of the original
input, a message) and no other interpretation, while an absent query is a
validation error. -/
theorem claim_C8_unrecognized_phrase (store : List StrRecord) (q : List Char)
    (h1 : toLowerList (trimList q) ≠
      chars "all single word palindromic strings")
    (h2 : toLowerList (trimList q) ≠
      chars "strings longer than 10 characters")
    (h3 : toLowerList (trimList q) ≠
      chars "palindromic strings that contain the first vowel")
    (h4 : toLowerList (trimList q) ≠
      chars "strings containing the letter z") :
    filterByNaturalLanguage store (some (.str q)) =
      .ok 200 [] 0 q [] (some "Could not parse natural language query") ∧
    filterByNaturalLanguage store none = .err 400 .queryRequired := by
  refine ⟨?_, rfl⟩
  simp only [filterByNaturalLanguage]
  rw [if_neg h1, if_neg h2, if_neg h3, if_neg h4]

theorem claim_C8_witness :
    filterByNaturalLanguage zebraAppleStore
        (some (.str (chars "what is a palindrome"))) =
      .ok 200 [] 0 (chars "what is a palindrome") []
        (some "Could not parse natural language query") ∧
    filterByNaturalLanguage zebraAppleStore none = .err 400 .queryRequired :=
  claim_C8_unrecognized_phrase zebraAppleStore (chars "what is a palindrome")
    (by decide) (by decide) (by decide) (by decide)

/-- C9: over any store, a valid filter set extended with additional
filters never returns more records: the results are a subset of the
smaller set's results (and of the unfiltered collection), and the count
never increases. -/
theorem claim_C9_filter_monotonicity (store : List StrRecord) (f g : Filters)
    (_hf : validFilters f) (_hg : validFilters g) (he : extendsF f g) :
    (∀ r ∈ applyFilters g store, r ∈ applyFilters f store) ∧
    (applyFilters g store).length ≤ (applyFilters f store).length ∧
    ∀ r ∈ applyFilters g store, r ∈ store := by
  have hsub := applyFilters_mono f g he store
  exact ⟨fun r hr => hsub.subset hr, hsub.length_le,
    fun r hr => (applyFilters_sublist g store).subset hr⟩

theorem claim_C9_witness :
    (applyFilters phrase1Filters zebraAppleStore).length ≤
      (applyFilters noFilters zebraAppleStore).length :=
  (claim_C9_filter_monotonicity zebraAppleStore noFilters phrase1Filters
    (fun _ _ h => nomatch h) (fun _ _ h => nomatch h)
    ⟨Or.inl rfl, Or.inl rfl, Or.inl rfl, Or.inl rfl, Or.inl rfl⟩).2.1

/-- C5: within the structured filter, a record matches `contains_character`
iff its value contains at least one of the provided substrings (OR inside
the family), the family is combined with the other provided families by
AND (membership in the result is membership in the other-families result
plus the contains test), entries empty after trimming are discarded, and
an all-empty parameter behaves as not provided. -/
theorem claim_C5_contains_semantics (f : Filters) (rs : List StrRecord)
    (xs : List (List Char)) :
    parseContains (some (.arr xs)) =
      (if ((xs.map trimList).filter (fun s => s.length > 0)).length = 0 then
        none
      else some ((xs.map trimList).filter (fun s => s.length > 0))) ∧
    ((xs.map trimList).filter (fun s => s.length > 0) = [] →
      applyFilters
          { f with contains_character := parseContains (some (.arr xs)) } rs =
        applyFilters { f with contains_character := none } rs) ∧
    ((xs.map trimList).filter (fun s => s.length > 0) ≠ [] →
      ∀ r, r ∈ applyFilters
          { f with contains_character := parseContains (some (.arr xs)) } rs ↔
        (r ∈ applyFilters { f with contains_character := none } rs ∧
          ∃ v, r.value = some v ∧
            ∃ sub ∈ (xs.map trimList).filter (fun s => s.length > 0),
              jsIncludes v sub = true)) := by
  refine ⟨rfl, fun h => ?_, fun h r => ?_⟩
  · simp [parseContains, h]
  · have hpc : parseContains (some (.arr xs)) =
        some ((xs.map trimList).filter (fun s => s.length > 0)) := by
      simp only [parseContains]
      rw [if_neg (by simpa [List.length_eq_zero] using h)]
    have hlen :
        0 < ((xs.map trimList).filter (fun s => s.length > 0)).length :=
      List.length_pos.2 h
    rw [hpc, applyFilters_eq_filter, applyFilters_eq_filter]
    generalize (xs.map trimList).filter (fun s => s.length > 0) = kept
      at hlen ⊢
    obtain ⟨ip, mn, mx, wc, cc⟩ := f
    have hcp : containsPred kept r = true ↔
        ∃ v, r.value = some v ∧ ∃ sub ∈ kept, jsIncludes v sub = true := by
      cases hv : r.value with
      | none => simp [containsPred, hv]
      | some v => simp [containsPred, hv, List.any_eq_true]
    simp only [List.mem_filter, filterPred, Bool.and_eq_true, if_pos hlen]
    rw [hcp]
    tauto

theorem claim_C5_witness :
    applyFilters
        { noFilters with
          contains_character := parseContains (some (.arr [chars " "])) }
        zebraAppleStore =
      applyFilters { noFilters with contains_character := none }
        zebraAppleStore :=
  (claim_C5_contains_semantics noFilters zebraAppleStore [chars " "]).2.1
    (by decide)

/-- C6: a provided `min_length`, `max_length` or `word_count` value that is
empty or non-numeric after trimming makes the filter operation fail with
the corresponding 400 validation error, and providing both bounds with
`min_length > max_length` fails with the 400 validation error for every
store (no records examined). -/
theorem claim_C6_numeric_validation (store : List StrRecord) (raw : RawQuery)
    (hb : parseBoolParam raw.is_palindrome ≠ .invalid) :
    (∀ t : List Char, parseNumberParam (some (.str t)) = .invalid ↔
      (trimList t = [] ∨ jsNumber (trimList t) = none)) ∧
    (parseNumberParam raw.min_length = .invalid →
      getAllStringsWithFiltering store raw = .err 400 .minLengthInvalid) ∧
    (parseNumberParam raw.min_length ≠ .invalid →
      parseNumberParam raw.max_length = .invalid →
      getAllStringsWithFiltering store raw = .err 400 .maxLengthInvalid) ∧
    (parseNumberParam raw.min_length ≠ .invalid →
      parseNumberParam raw.max_length ≠ .invalid →
      parseNumberParam raw.word_count = .invalid →
      getAllStringsWithFiltering store raw = .err 400 .wordCountInvalid) ∧
    (∀ a b : ℚ, parseNumberParam raw.min_length = .val a →
      parseNumberParam raw.max_length = .val b →
      parseNumberParam raw.word_count ≠ .invalid →
      a > b →
      getAllStringsWithFiltering store raw = .err 400 .minGreaterThanMax) := by
  refine ⟨?_, ?_, ?_, ?_, ?_⟩
  · intro t
    by_cases ht : trimList t = []
    · simp [parseNumberParam, ht]
    · cases hj : jsNumber (trimList t) <;> simp [parseNumberParam, ht, hj]
  · intro h
    simp [getAllStringsWithFiltering, hb, h]
  · intro h1 h2
    simp [getAllStringsWithFiltering, hb, h1, h2]
  · intro h1 h2 h3
    simp [getAllStringsWithFiltering, hb, h1, h2, h3]
  · intro a b ha hb2 hwc hab
    simp [getAllStringsWithFiltering, hb, ha, hb2, hwc, minMaxConflict, hab]

theorem claim_C6_witness :
    getAllStringsWithFiltering []
      { emptyQuery with
        min_length := some (.str (chars "5"))
        max_length := some (.str (chars "3")) } =
      .err 400 .minGreaterThanMax :=
  (claim_C6_numeric_validation []
    { emptyQuery with
      min_length := some (.str (chars "5"))
      max_length := some (.str (chars "3")) }
    (by decide)).2.2.2.2 5 3 (by decide) (by decide) (by decide) (by decide)

/-- Membership of the ASCII upper-case range, the characters the
normalization maps away. -/
def isUpperAscii (c : Char) : Bool :=
  decide (65 ≤ c.toNat) && decide (c.toNat ≤ 90)

/-- C10: the structured `contains_character` test is case-sensitive and
every insert-produced record stores a fully lower-cased value, so over a
store of lower-cased records any substring containing an ASCII upper-case
letter matches nothing and the contains-only filter returns the empty
result. -/
theorem claim_C10_case_sensitive_contains :
    (∀ s now : List Char,
      (mkRecord (toLowerList s) now).value = some (toLowerList s) ∧
      ∀ c ∈ toLowerList s, isUpperAscii c = false) ∧
    (∀ (store : List StrRecord) (sub : List Char),
      (∀ r ∈ store, ∀ v, r.value = some v →
        ∀ c ∈ v, isUpperAscii c = false) →
      (∃ c ∈ sub, isUpperAscii c = true) →
      applyFilters { noFilters with contains_character := some [sub] }
        store = []) := by
  constructor
  · intro s now
    refine ⟨rfl, ?_⟩
    intro c hc
    unfold toLowerList at hc
    obtain ⟨d, _, hdc⟩ := List.mem_map.1 hc
    subst hdc
    rcases toLower_not_upper d with h | h
    · have hd : ¬(65 ≤ d.toLower.toNat) := by omega
      unfold isUpperAscii
      rw [decide_eq_false hd, Bool.false_and]
    · have hd : ¬(d.toLower.toNat ≤ 90) := by omega
      unfold isUpperAscii
      rw [decide_eq_false hd, Bool.and_false]
  · intro store sub hstore hupper
    rw [applyFilters_eq_filter, List.filter_eq_nil_iff]
    intro r hr hcontra
    simp only [filterPred, noFilters, Bool.and_eq_true] at hcontra
    have hc : containsPred [sub] r = true := by simpa using hcontra.2
    obtain ⟨c, hcsub, hcup⟩ := hupper
    cases hv : r.value with
    | none => simp [containsPred, hv] at hc
    | some v =>
        simp only [containsPred, hv, List.any_cons, List.any_nil,
          Bool.or_false, jsIncludes, decide_eq_true_eq] at hc
        have hcv : c ∈ v := hc.subset hcsub
        have hlow := hstore r hr v hv c hcv
        rw [hlow] at hcup
        exact Bool.false_ne_true hcup

theorem claim_C10_witness :
    applyFilters { noFilters with contains_character := some [chars "A"] }
      [mkRecord (chars "abc") []] = [] := by
  apply claim_C10_case_sensitive_contains.2
  · intro r hr v hv c hcv
    simp only [List.mem_singleton] at hr
    subst hr
    simp only [mkRecord] at hv
    have hveq : chars "abc" = v := Option.some.inj hv
    subst hveq
    revert hcv
    revert c
    decide
  · exact ⟨'A', by decide, by decide⟩

end StrAnalysis
